import Mathlib

/-!
Verification of the Quod-Libet-Wrapped core (`stats_from_playcounts.py`):
the Delta Engine (`compute_deltas`), the Aggregator (`aggregate_stats`) and
the Summary Builder (`produce_summary`).

The Python code works on dicts keyed by a per-track identifier.  We embed a
snapshot as an association list `List (String × Track)` with Python-dict
lookup semantics (`find?` on the key), and the Delta Engine's output as an
association list `List (String × DeltaRec)` kept in iteration order, since
the Aggregator's stable sorts depend on that order.  Python's unbounded
`int` is embedded as `Int`; the single floating-point value
(`average_plays_per_played_track`, a quotient of two integers) is embedded
as `ℚ`.  Python `x or y` on string-or-None values (used for the
title/artist/album fields) is embedded by `pyOr` below: `None` and the
empty string are falsy.
-/

namespace QLWrapped

/-- A track record as produced by the snapshot loader (`load_playcounts`):
`file`, `title`, `artist`, `album` are strings, `playcount` an integer. -/
structure Track where
  file : String
  title : String
  artist : String
  album : String
  playcount : Int
  deriving Repr, DecidableEq

/-- A snapshot: mapping identifier → track record, as an association list. -/
abbrev Snapshot := List (String × Track)

/-- Python dict lookup `m.get(k)`: first binding of `k`, if any. -/
def lookup (m : Snapshot) (k : String) : Option Track :=
  (m.find? (fun p => p.1 == k)).map (·.2)

/-- The list of keys of a snapshot. -/
def keys (m : Snapshot) : List String := m.map (·.1)

/-- Playcount of `k` in `m`, with a missing identifier treated as 0
(mirrors `m.get(k, {"playcount": 0})` followed by reading `playcount`). -/
def getCount (m : Snapshot) (k : String) : Int :=
  ((lookup m k).map Track.playcount).getD 0

/-- Python `x or y` for optional strings: `None` and `""` are falsy, so the
result is `x` when `x` is a non-empty string and `y` otherwise. -/
def pyOr (x y : Option String) : Option String :=
  match x with
  | some s => if s = "" then y else some s
  | none => y

/-- One delta record of the Delta Engine's output
(`compute_deltas`, src/stats_from_playcounts.py lines 90-98). -/
structure DeltaRec where
  file : Option String
  title : Option String
  artist : Option String
  album : Option String
  current_playcount : Int
  previous_playcount : Int
  delta : Int
  deriving Repr, DecidableEq

/-- The loop body of `compute_deltas` for one key `k`:
`curr = current_map.get(k, {"playcount": 0})`, likewise `prev`, then
`delta = curr_count - prev_count` clamped at 0, and metadata fields taken
with Python `or` from current's record, else previous's. -/
def mkDelta (current_map prev_map : Snapshot) (k : String) : DeltaRec :=
  let curr := lookup current_map k
  let prev := lookup prev_map k
  let curr_count := (curr.map Track.playcount).getD 0
  let prev_count := (prev.map Track.playcount).getD 0
  let d := curr_count - prev_count
  { file := pyOr (curr.map Track.file) (prev.map Track.file)
    title := pyOr (curr.map Track.title) (prev.map Track.title)
    artist := pyOr (curr.map Track.artist) (prev.map Track.artist)
    album := pyOr (curr.map Track.album) (prev.map Track.album)
    current_playcount := curr_count
    previous_playcount := prev_count
    delta := if d < 0 then 0 else d }

/-- The Delta Engine (`compute_deltas`, lines 77-99): one delta record per
identifier in `set(current_map.keys()) | set(prev_map.keys())`.  Python's
set iteration order is unspecified; we fix one enumeration of the union
(`dedup` of the concatenated key lists).  Every claim about this output is
insensitive to that enumeration order. -/
def compute_deltas (current_map prev_map : Snapshot) : List (String × DeltaRec) :=
  ((keys current_map ++ keys prev_map).dedup).map
    (fun k => (k, mkDelta current_map prev_map k))

/-! ### Aggregator (`aggregate_stats`, lines 101-157) -/

/-- One entry of the `top_100_songs` list (lines 117-123). -/
structure SongEntry where
  title : Option String
  artist : Option String
  album : Option String
  plays : Int
  file : Option String
  deriving Repr, DecidableEq

/-- One entry of the `top_5_artists` list (line 128, `tracks` filled in at
lines 130-135). -/
structure ArtistEntry where
  artist : Option String
  plays : Int
  tracks : Int
  deriving Repr, DecidableEq

/-- The `top_album` value (lines 138-147). -/
structure AlbumEntry where
  album : Option String
  plays : Int
  tracks : Int
  deriving Repr, DecidableEq

/-- A `collections.Counter` / `defaultdict(int)` keyed by an optional
string, embedded as an association list in insertion order. -/
abbrev Counter := List (Option String × Int)

/-- Counter update `c[k] += d`: update the binding of `k` in place if
present, otherwise append `(k, d)` at the end (Python dicts keep insertion
order and updating a key does not move it). -/
def counterAdd (c : Counter) (k : Option String) (d : Int) : Counter :=
  match c with
  | [] => [(k, d)]
  | (q, v) :: rest =>
    if q = k then (q, v + d) :: rest else (q, v) :: counterAdd rest k d

/-- Counter read `c.get(k, 0)`: the value bound to `k`, or 0 when absent. -/
def counterVal (c : Counter) (k : Option String) : Int :=
  ((c.find? (fun p => p.1 == k)).map (·.2)).getD 0

/-- The accumulation pattern shared by `by_artist`, `by_album` (lines
110-116) and the two `*_track_counts` maps (lines 130-133, 143-146): fold
over the delta mapping in iteration order, and for each entry with
positive delta add `val` to the counter at `key`. -/
def accumBy (key : DeltaRec → Option String) (val : DeltaRec → Int)
    (ds : List (String × DeltaRec)) : Counter :=
  ds.foldl (fun c e => if 0 < e.2.delta then counterAdd c (key e.2) (val e.2) else c) []

/-- Embedding of `by_artist`: summed delta per artist over positive-delta entries. -/
def by_artist (ds : List (String × DeltaRec)) : Counter :=
  accumBy (·.artist) (·.delta) ds

/-- Embedding of `by_album`: summed delta per album over positive-delta entries. -/
def by_album (ds : List (String × DeltaRec)) : Counter :=
  accumBy (·.album) (·.delta) ds

/-- Embedding of `artist_track_counts`: number of positive-delta entries per artist. -/
def artist_track_counts (ds : List (String × DeltaRec)) : Counter :=
  accumBy (·.artist) (fun _ => 1) ds

/-- Embedding of `album_track_counts`: number of positive-delta entries per album. -/
def album_track_counts (ds : List (String × DeltaRec)) : Counter :=
  accumBy (·.album) (fun _ => 1) ds

/-- The `top_songs` list built by the loop (lines 108-123): one entry per
positive-delta record, in iteration order of the delta mapping. -/
def songEntries (ds : List (String × DeltaRec)) : List SongEntry :=
  (ds.filter (fun e => decide (0 < e.2.delta))).map
    (fun e => { title := e.2.title, artist := e.2.artist, album := e.2.album,
                plays := e.2.delta, file := e.2.file })

/-- The comparison used by `top_songs.sort(key=plays, reverse=True)`:
Python's sort is a stable sort, and with `reverse=True` equal keys keep
their input order, so it is exactly a stable sort under this relation. -/
def songGE (a b : SongEntry) : Bool := decide (b.plays ≤ a.plays)

/-- The comparison underlying `Counter.most_common`: `heapq.nlargest` is
documented and implemented as `sorted(items, key=value, reverse=True)[:n]`,
a stable descending sort followed by truncation. -/
def cntGE (a b : Option String × Int) : Bool := decide (b.2 ≤ a.2)

/-- Embedding of `Counter.most_common(n)`: the `n` largest items in a stable descending
order by value. -/
def most_common (c : Counter) (n : Nat) : Counter :=
  (c.mergeSort cntGE).take n

/-- The record returned by `aggregate_stats` (lines 149-156). -/
structure Stats where
  total_play_deltas : Int
  tracks_with_plays_this_year : Nat
  average_plays_per_played_track : ℚ
  top_5_artists : List ArtistEntry
  top_album : Option AlbumEntry
  top_100_songs : List SongEntry
  deriving Repr, DecidableEq

/-- The Aggregator (`aggregate_stats`, lines 101-157).  The single Python
loop accumulates `total_play_deltas`, `tracks_with_plays`, the two
counters and `top_songs`; each accumulation is written here as its own
pass over the same list in the same order, which folds to the same
values. -/
def aggregate_stats (ds : List (String × DeltaRec)) : Stats :=
  let total_play_deltas := (ds.map (·.2.delta)).sum
  let tracks_with_plays := ds.countP (fun e => decide (0 < e.2.delta))
  let top_5_songs := ((songEntries ds).mergeSort songGE).take 100
  let top_5_artists := (most_common (by_artist ds) 5).map
    (fun p => { artist := p.1, plays := p.2,
                tracks := counterVal (artist_track_counts ds) p.1 : ArtistEntry })
  let top_album : Option AlbumEntry :=
    match (by_album ds).mergeSort cntGE with
    | [] => none
    | (a, p) :: _ =>
      some { album := a, plays := p, tracks := counterVal (album_track_counts ds) a }
  { total_play_deltas := total_play_deltas
    tracks_with_plays_this_year := tracks_with_plays
    average_plays_per_played_track :=
      if tracks_with_plays = 0 then 0
      else (total_play_deltas : ℚ) / (tracks_with_plays : ℚ)
    top_5_artists := top_5_artists
    top_album := top_album
    top_100_songs := top_5_songs }

/-! ### Summary Builder (`produce_summary`, lines 159-188) -/

/-- The summary object (lines 166-187), flattened: the JSON groups the
fields under `metadata`, `deltas_summary` and `top_lists`, which is purely
presentational. -/
structure Summary where
  current_snapshot_tracks : Nat
  previous_snapshot_tracks : Nat
  new_tracks_count : Nat
  removed_tracks_count : Nat
  tracks_added_list_sample : List String
  tracks_removed_list_sample : List String
  total_plays_this_year : Int
  tracks_with_plays_this_year : Nat
  average_plays_per_played_track : ℚ
  top_5_artists : List ArtistEntry
  top_album : Option AlbumEntry
  top_100_songs : List SongEntry
  per_song_deltas_count : Nat
  deriving Repr, DecidableEq

/-- The Summary Builder (`produce_summary`): new/removed track lists from
the delta mapping in iteration order, samples capped at the first 10,
counts uncapped, aggregate fields passed through verbatim. -/
def produce_summary (current_map prev_map : Snapshot)
    (ds : List (String × DeltaRec)) (stats : Stats) : Summary :=
  let new_tracks := (ds.filter
    (fun e => decide (e.2.previous_playcount = 0 ∧ 0 < e.2.current_playcount))).map (·.1)
  let removed_tracks := (ds.filter
    (fun e => decide (0 < e.2.previous_playcount ∧ e.2.current_playcount = 0))).map (·.1)
  { current_snapshot_tracks := current_map.length
    previous_snapshot_tracks := prev_map.length
    new_tracks_count := new_tracks.length
    removed_tracks_count := removed_tracks.length
    tracks_added_list_sample := new_tracks.take 10
    tracks_removed_list_sample := removed_tracks.take 10
    total_plays_this_year := stats.total_play_deltas
    tracks_with_plays_this_year := stats.tracks_with_plays_this_year
    average_plays_per_played_track := stats.average_plays_per_played_track
    top_5_artists := stats.top_5_artists
    top_album := stats.top_album
    top_100_songs := stats.top_100_songs
    per_song_deltas_count := ds.length }

/-! ### Spec-side definitions and concrete example data -/

/-- The positive-delta entries of a delta mapping, in iteration order. -/
def posEntries (ds : List (String × DeltaRec)) : List (String × DeltaRec) :=
  ds.filter (fun e => decide (0 < e.2.delta))

/-- Summed delta of the positive-delta entries whose `key` field is `a`
(the spec's per-artist / per-album summed delta). -/
def keySum (key : DeltaRec → Option String) (ds : List (String × DeltaRec))
    (a : Option String) : Int :=
  (((posEntries ds).filter (fun e => decide (key e.2 = a))).map (·.2.delta)).sum

/-- Number of positive-delta entries whose `key` field is `a`
(the spec's contributing-track count). -/
def keyCount (key : DeltaRec → Option String) (ds : List (String × DeltaRec))
    (a : Option String) : Nat :=
  ((posEntries ds).filter (fun e => decide (key e.2 = a))).length

/-- Sum of `val` over the positive-delta entries whose `key` field is `a`:
the generic quantity accumulated by `accumBy`. -/
def posValSum (key : DeltaRec → Option String) (val : DeltaRec → Int)
    (ds : List (String × DeltaRec)) (a : Option String) : Int :=
  ((ds.filter (fun e => decide (0 < e.2.delta ∧ key e.2 = a))).map (fun e => val e.2)).sum

/-- Index of the first positive-delta entry whose `key` field is `a`
(the spec's first-encountered order for tie-breaking). -/
def firstPosIdx (key : DeltaRec → Option String) (ds : List (String × DeltaRec))
    (a : Option String) : Nat :=
  ds.findIdx (fun e => decide (0 < e.2.delta ∧ key e.2 = a))

/-- Modelled on the spec sentence for metadata fields: the field value is
taken from current's record when present there with a non-empty value,
otherwise from previous's record when present there, otherwise absent. -/
def fieldFrom (f : Track → String) (cur prev : Snapshot) (k : String) : Option String :=
  match lookup cur k with
  | some t => if f t = "" then (lookup prev k).map f else some (f t)
  | none => (lookup prev k).map f

/-- A sample track used by the concrete witnesses. -/
def sampleTrack (name : String) (artist album : String) (n : Int) : Track :=
  { file := name, title := name, artist := artist, album := album, playcount := n }

/-- Current snapshot of the spec's worked scenario (A: 10, B: 5). -/
def curExample : Snapshot :=
  [("A", sampleTrack "A" "artA" "albA" 10), ("B", sampleTrack "B" "artB" "albB" 5)]

/-- Previous snapshot of the spec's worked scenario (A: 7, B: 8). -/
def prevExample : Snapshot :=
  [("A", sampleTrack "A" "artA" "albA" 7), ("B", sampleTrack "B" "artB" "albB" 8)]

/-- A current snapshot whose only record carries an empty (falsy) title. -/
def curFalsy : Snapshot :=
  [("k", { file := "k", title := "", artist := "A", album := "B", playcount := 1 })]

/-- A previous snapshot for the same identifier with a non-empty title. -/
def prevFalsy : Snapshot :=
  [("k", { file := "k", title := "T", artist := "A", album := "B", playcount := 0 })]

/-- A small concrete delta mapping used by witnesses: two positive-delta
entries by the same artist and one zero-delta entry. -/
def dsExample : List (String × DeltaRec) :=
  [("x", { file := some "x", title := some "x", artist := some "ar", album := some "al",
           current_playcount := 4, previous_playcount := 1, delta := 3 }),
   ("y", { file := some "y", title := some "y", artist := some "ar", album := some "al2",
           current_playcount := 2, previous_playcount := 0, delta := 2 }),
   ("z", { file := some "z", title := some "z", artist := some "zz", album := some "al",
           current_playcount := 1, previous_playcount := 1, delta := 0 })]

/-- The same entries as `dsExample` in a different iteration order. -/
def dsExamplePerm : List (String × DeltaRec) :=
  [("y", { file := some "y", title := some "y", artist := some "ar", album := some "al2",
           current_playcount := 2, previous_playcount := 0, delta := 2 }),
   ("x", { file := some "x", title := some "x", artist := some "ar", album := some "al",
           current_playcount := 4, previous_playcount := 1, delta := 3 }),
   ("z", { file := some "z", title := some "z", artist := some "zz", album := some "al",
           current_playcount := 1, previous_playcount := 1, delta := 0 })]

/-! ## Theorems -/

/-- Claim C1: for every pair of snapshots and every identifier in the union
of their key sets, the delta record has `current_playcount`/
`previous_playcount` read from the respective snapshot with a missing
identifier treated as playcount 0, and
`delta = max 0 (current_playcount - previous_playcount)`; in particular
`0 ≤ delta` always. -/
theorem delta_clamp_nonneg (cur prev : Snapshot) (k : String) (r : DeltaRec)
    (h : (k, r) ∈ compute_deltas cur prev) :
    r.current_playcount = getCount cur k ∧
    r.previous_playcount = getCount prev k ∧
    r.delta = max 0 (getCount cur k - getCount prev k) ∧
    0 ≤ r.delta := by
  simp only [compute_deltas, List.mem_map] at h
  obtain ⟨k2, hk2, hpair⟩ := h
  rw [Prod.mk.injEq] at hpair
  obtain ⟨rfl, rfl⟩ := hpair
  refine ⟨rfl, rfl, ?_, ?_⟩
  · show (if getCount cur k2 - getCount prev k2 < 0 then 0
          else getCount cur k2 - getCount prev k2) = _
    split <;> omega
  · show (0 : Int) ≤ if getCount cur k2 - getCount prev k2 < 0 then 0
          else getCount cur k2 - getCount prev k2
    split <;> omega

/-- Witness for C1 at the spec's worked scenario, identifier B (previous
exceeds current, so the delta clamps to 0). -/
theorem delta_clamp_nonneg_witness :
    ("B", mkDelta curExample prevExample "B") ∈ compute_deltas curExample prevExample ∧
    ((mkDelta curExample prevExample "B").current_playcount = getCount curExample "B" ∧
     (mkDelta curExample prevExample "B").previous_playcount = getCount prevExample "B" ∧
     (mkDelta curExample prevExample "B").delta =
       max 0 (getCount curExample "B" - getCount prevExample "B") ∧
     0 ≤ (mkDelta curExample prevExample "B").delta) :=
  ⟨by decide, delta_clamp_nonneg curExample prevExample "B" _ (by decide)⟩

/-- Claim C2: the key set of the Delta Engine's output is exactly the union
of the two snapshots' key sets. -/
theorem deltas_cover_union (cur prev : Snapshot) (k : String) :
    k ∈ (compute_deltas cur prev).map (·.1) ↔ (k ∈ keys cur ∨ k ∈ keys prev) := by
  simp [compute_deltas, List.mem_dedup, List.mem_append]

/-- Counterexample to claim C9 as stated: the identifier `k` is present in
the current snapshot (with the falsy title `""`), yet the delta record's
title is taken from the previous snapshot's record. -/
theorem field_source_counterexample :
    ("k", mkDelta curFalsy prevFalsy "k") ∈ compute_deltas curFalsy prevFalsy ∧
    "k" ∈ keys curFalsy ∧
    (mkDelta curFalsy prevFalsy "k").title ≠ (lookup curFalsy "k").map Track.title := by
  decide

/-- Claim C9 as amended: each of the title, artist and album fields of a
delta record is taken from the current snapshot's record if the identifier
is present there with a non-empty value for that field, and otherwise from
the previous snapshot's record if present there; Python `or` treats the
empty string like a missing field. -/
theorem field_source_amended (cur prev : Snapshot) (k : String) (r : DeltaRec)
    (h : (k, r) ∈ compute_deltas cur prev) :
    r.title = fieldFrom Track.title cur prev k ∧
    r.artist = fieldFrom Track.artist cur prev k ∧
    r.album = fieldFrom Track.album cur prev k := by
  simp only [compute_deltas, List.mem_map] at h
  obtain ⟨k2, hk2, hpair⟩ := h
  rw [Prod.mk.injEq] at hpair
  obtain ⟨rfl, rfl⟩ := hpair
  refine ⟨?_, ?_, ?_⟩ <;>
  · show pyOr ((lookup cur k2).map _) ((lookup prev k2).map _) = _
    unfold fieldFrom pyOr
    cases lookup cur k2 <;> simp

/-- Witness for the amended C9 at the falsy-title example. -/
theorem field_source_amended_witness :
    ("k", mkDelta curFalsy prevFalsy "k") ∈ compute_deltas curFalsy prevFalsy ∧
    ((mkDelta curFalsy prevFalsy "k").title = fieldFrom Track.title curFalsy prevFalsy "k" ∧
     (mkDelta curFalsy prevFalsy "k").artist = fieldFrom Track.artist curFalsy prevFalsy "k" ∧
     (mkDelta curFalsy prevFalsy "k").album = fieldFrom Track.album curFalsy prevFalsy "k") :=
  ⟨by decide, field_source_amended curFalsy prevFalsy "k" _ (by decide)⟩

/-! ### Counter lemmas: `counterAdd` and `accumBy` compute per-key sums of
the positive-delta entries, with duplicate-free keys in first-encountered
order. -/

theorem counterVal_nil (a : Option String) : counterVal [] a = 0 := rfl

theorem counterVal_cons (q : Option String) (v : Int) (rest : Counter) (a : Option String) :
    counterVal ((q, v) :: rest) a = if q = a then v else counterVal rest a := by
  by_cases hqa : q = a <;> simp [counterVal, List.find?_cons, hqa]

theorem counterAdd_nil (k : Option String) (d : Int) : counterAdd [] k d = [(k, d)] := rfl

theorem counterAdd_cons (q : Option String) (v : Int) (rest : Counter)
    (k : Option String) (d : Int) :
    counterAdd ((q, v) :: rest) k d =
      if q = k then (q, v + d) :: rest else (q, v) :: counterAdd rest k d := rfl

theorem counterAdd_val (c : Counter) (k a : Option String) (d : Int) :
    counterVal (counterAdd c k d) a = counterVal c a + (if a = k then d else 0) := by
  induction c with
  | nil =>
    rw [counterAdd_nil, counterVal_nil, counterVal_cons, counterVal_nil]
    by_cases hka : k = a
    · subst hka; simp
    · rw [if_neg hka, if_neg (fun h => hka h.symm)]; ring
  | cons p rest ih =>
    obtain ⟨q, v⟩ := p
    rw [counterAdd_cons]
    by_cases hqk : q = k
    · subst hqk
      rw [if_pos rfl, counterVal_cons, counterVal_cons]
      by_cases hqa : q = a
      · subst hqa; simp
      · rw [if_neg hqa, if_neg hqa, if_neg (fun h => hqa h.symm)]
        ring
    · rw [if_neg hqk, counterVal_cons, counterVal_cons]
      by_cases hqa : q = a
      · subst hqa
        rw [if_pos rfl, if_pos rfl, if_neg hqk]
        ring
      · rw [if_neg hqa, if_neg hqa, ih]

theorem counterAdd_keys (c : Counter) (k : Option String) (d : Int) :
    (counterAdd c k d).map (·.1) =
      if k ∈ c.map (·.1) then c.map (·.1) else c.map (·.1) ++ [k] := by
  induction c with
  | nil => simp [counterAdd_nil]
  | cons p rest ih =>
    obtain ⟨q, v⟩ := p
    rw [counterAdd_cons]
    by_cases hqk : q = k
    · subst hqk
      rw [if_pos rfl]
      simp
    · rw [if_neg hqk]
      have hkq : ¬ k = q := fun h => hqk h.symm
      simp only [List.map_cons, ih, List.mem_cons, hkq, false_or]
      split <;> simp

theorem counterAdd_keys_mem (c : Counter) (k : Option String) (d : Int) (a : Option String) :
    a ∈ (counterAdd c k d).map (·.1) ↔ a ∈ c.map (·.1) ∨ a = k := by
  rw [counterAdd_keys]
  split
  · next hin =>
    constructor
    · exact Or.inl
    · rintro (h | rfl)
      · exact h
      · exact hin
  · simp

theorem counterAdd_keys_nodup (c : Counter) (k : Option String) (d : Int)
    (h : (c.map (·.1)).Nodup) : ((counterAdd c k d).map (·.1)).Nodup := by
  rw [counterAdd_keys]
  split
  · exact h
  · next hk =>
    rw [List.nodup_append]
    refine ⟨h, List.nodup_singleton k, ?_⟩
    intro a ha hb
    rw [List.mem_singleton] at hb
    subst hb
    exact hk ha

theorem counter_mem_val (c : Counter) (a : Option String) (v : Int)
    (hmem : (a, v) ∈ c) (hnd : (c.map (·.1)).Nodup) : v = counterVal c a := by
  induction c with
  | nil => cases hmem
  | cons p rest ih =>
    obtain ⟨b, w⟩ := p
    rw [List.map_cons, List.nodup_cons] at hnd
    rcases List.mem_cons.mp hmem with heq | htail
    · rw [Prod.mk.injEq] at heq
      obtain ⟨rfl, rfl⟩ := heq
      simp [counterVal_cons]
    · have hba : ¬ b = a := by
        intro h
        subst h
        exact hnd.1 (List.mem_map.mpr ⟨(b, v), htail, rfl⟩)
      rw [counterVal_cons, if_neg hba]
      exact ih htail hnd.2

theorem posValSum_nil (key : DeltaRec → Option String) (val : DeltaRec → Int)
    (a : Option String) : posValSum key val [] a = 0 := rfl

theorem posValSum_cons (key : DeltaRec → Option String) (val : DeltaRec → Int)
    (e : String × DeltaRec) (rest : List (String × DeltaRec)) (a : Option String) :
    posValSum key val (e :: rest) a =
      (if 0 < e.2.delta ∧ key e.2 = a then val e.2 else 0) + posValSum key val rest a := by
  by_cases h : 0 < e.2.delta ∧ key e.2 = a <;> simp [posValSum, List.filter_cons, h]

theorem accumBy_foldl_val (key : DeltaRec → Option String) (val : DeltaRec → Int)
    (ds : List (String × DeltaRec)) :
    ∀ (c : Counter) (a : Option String),
      counterVal (ds.foldl
          (fun c e => if 0 < e.2.delta then counterAdd c (key e.2) (val e.2) else c) c) a
        = counterVal c a + posValSum key val ds a := by
  induction ds with
  | nil => intro c a; simp [posValSum_nil]
  | cons e rest ih =>
    intro c a
    rw [List.foldl_cons, posValSum_cons]
    by_cases hd : 0 < e.2.delta
    · rw [if_pos hd, ih, counterAdd_val]
      by_cases hk : key e.2 = a
      · have h1 : (if a = key e.2 then val e.2 else 0) = val e.2 := if_pos hk.symm
        have h2 : (if 0 < e.2.delta ∧ key e.2 = a then val e.2 else 0) = val e.2 :=
          if_pos ⟨hd, hk⟩
        rw [h1, h2]; ring
      · have h1 : (if a = key e.2 then val e.2 else 0) = 0 := if_neg (fun h => hk h.symm)
        have h2 : (if 0 < e.2.delta ∧ key e.2 = a then val e.2 else 0) = 0 :=
          if_neg (fun h => hk h.2)
        rw [h1, h2]; ring
    · rw [if_neg hd, ih]
      have h2 : (if 0 < e.2.delta ∧ key e.2 = a then val e.2 else 0) = 0 :=
        if_neg (fun h => hd h.1)
      rw [h2]; ring

theorem accumBy_val (key : DeltaRec → Option String) (val : DeltaRec → Int)
    (ds : List (String × DeltaRec)) (a : Option String) :
    counterVal (accumBy key val ds) a = posValSum key val ds a := by
  have h := accumBy_foldl_val key val ds [] a
  simpa [accumBy, counterVal_nil] using h

theorem accumBy_foldl_mem (key : DeltaRec → Option String) (val : DeltaRec → Int)
    (ds : List (String × DeltaRec)) :
    ∀ (c : Counter) (a : Option String),
      a ∈ (ds.foldl
          (fun c e => if 0 < e.2.delta then counterAdd c (key e.2) (val e.2) else c) c).map (·.1)
        ↔ a ∈ c.map (·.1) ∨ ∃ e ∈ ds, 0 < e.2.delta ∧ key e.2 = a := by
  induction ds with
  | nil => intro c a; simp
  | cons e rest ih =>
    intro c a
    rw [List.foldl_cons]
    by_cases hd : 0 < e.2.delta
    · rw [if_pos hd, ih, counterAdd_keys_mem]
      constructor
      · rintro ((h | rfl) | h)
        · exact Or.inl h
        · exact Or.inr ⟨e, List.mem_cons_self e rest, hd, rfl⟩
        · obtain ⟨x, hx, hpx, hkx⟩ := h
          exact Or.inr ⟨x, List.mem_cons_of_mem e hx, hpx, hkx⟩
      · rintro (h | ⟨x, hx, hpx, hkx⟩)
        · exact Or.inl (Or.inl h)
        · rcases List.mem_cons.mp hx with rfl | hx2
          · exact Or.inl (Or.inr hkx.symm)
          · exact Or.inr ⟨x, hx2, hpx, hkx⟩
    · rw [if_neg hd, ih]
      constructor
      · rintro (h | ⟨x, hx, hpx, hkx⟩)
        · exact Or.inl h
        · exact Or.inr ⟨x, List.mem_cons_of_mem e hx, hpx, hkx⟩
      · rintro (h | ⟨x, hx, hpx, hkx⟩)
        · exact Or.inl h
        · rcases List.mem_cons.mp hx with rfl | hx2
          · exact absurd hpx hd
          · exact Or.inr ⟨x, hx2, hpx, hkx⟩

theorem accumBy_mem (key : DeltaRec → Option String) (val : DeltaRec → Int)
    (ds : List (String × DeltaRec)) (a : Option String) :
    a ∈ (accumBy key val ds).map (·.1) ↔ ∃ e ∈ ds, 0 < e.2.delta ∧ key e.2 = a := by
  have h := accumBy_foldl_mem key val ds [] a
  simpa [accumBy] using h

theorem accumBy_foldl_nodup (key : DeltaRec → Option String) (val : DeltaRec → Int)
    (ds : List (String × DeltaRec)) :
    ∀ (c : Counter), (c.map (·.1)).Nodup →
      ((ds.foldl
          (fun c e => if 0 < e.2.delta then counterAdd c (key e.2) (val e.2) else c) c).map
        (·.1)).Nodup := by
  induction ds with
  | nil => intro c hc; simpa using hc
  | cons e rest ih =>
    intro c hc
    rw [List.foldl_cons]
    by_cases hd : 0 < e.2.delta
    · rw [if_pos hd]
      exact ih _ (counterAdd_keys_nodup c _ _ hc)
    · rw [if_neg hd]
      exact ih c hc

theorem accumBy_nodup (key : DeltaRec → Option String) (val : DeltaRec → Int)
    (ds : List (String × DeltaRec)) : ((accumBy key val ds).map (·.1)).Nodup := by
  have h := accumBy_foldl_nodup key val ds [] (by simp)
  simpa [accumBy] using h

theorem firstPosIdx_lt_length (key : DeltaRec → Option String)
    (ds : List (String × DeltaRec)) (a : Option String)
    (h : ∃ e ∈ ds, 0 < e.2.delta ∧ key e.2 = a) :
    firstPosIdx key ds a < ds.length := by
  apply List.findIdx_lt_length_of_exists
  obtain ⟨e, he, h1, h2⟩ := h
  exact ⟨e, he, by simp [h1, h2]⟩

theorem firstPosIdx_append_of_found (key : DeltaRec → Option String)
    (ds more : List (String × DeltaRec)) (a : Option String)
    (h : ∃ e ∈ ds, 0 < e.2.delta ∧ key e.2 = a) :
    firstPosIdx key (ds ++ more) a = firstPosIdx key ds a := by
  have h2 := firstPosIdx_lt_length key ds a h
  unfold firstPosIdx at h2 ⊢
  rw [List.findIdx_append, if_pos h2]

theorem firstPosIdx_append_new (key : DeltaRec → Option String)
    (ds : List (String × DeltaRec)) (e : String × DeltaRec) (a : Option String)
    (hnew : ∀ x ∈ ds, ¬(0 < x.2.delta ∧ key x.2 = a))
    (he : 0 < e.2.delta ∧ key e.2 = a) :
    firstPosIdx key (ds ++ [e]) a = ds.length := by
  unfold firstPosIdx
  rw [List.findIdx_append]
  have hnf : ds.findIdx (fun x => decide (0 < x.2.delta ∧ key x.2 = a)) = ds.length :=
    List.findIdx_eq_length_of_false (fun x hx => by simpa using hnew x hx)
  rw [if_neg (by omega)]
  have h0 : [e].findIdx (fun x => decide (0 < x.2.delta ∧ key x.2 = a)) = 0 := by
    rw [List.findIdx_cons]
    simp [he.1, he.2]
  omega

theorem accumBy_keys_pairwise (key : DeltaRec → Option String) (val : DeltaRec → Int)
    (ds : List (String × DeltaRec)) :
    ((accumBy key val ds).map (·.1)).Pairwise
      (fun a b => firstPosIdx key ds a < firstPosIdx key ds b) := by
  induction ds using List.reverseRecOn with
  | nil => simp [accumBy]
  | append_singleton rest e ih =>
    have hstep : accumBy key val (rest ++ [e]) =
        if 0 < e.2.delta then counterAdd (accumBy key val rest) (key e.2) (val e.2)
        else accumBy key val rest := by
      simp only [accumBy, List.foldl_append, List.foldl_cons, List.foldl_nil]
    have hold : ((accumBy key val rest).map (·.1)).Pairwise
        (fun a b => firstPosIdx key (rest ++ [e]) a < firstPosIdx key (rest ++ [e]) b) := by
      refine ih.imp_of_mem ?_
      intro a b ha hb hab
      have ha2 := (accumBy_mem key val rest a).mp ha
      have hb2 := (accumBy_mem key val rest b).mp hb
      rw [firstPosIdx_append_of_found key rest [e] a ha2,
          firstPosIdx_append_of_found key rest [e] b hb2]
      exact hab
    rw [hstep]
    by_cases hd : 0 < e.2.delta
    · rw [if_pos hd, counterAdd_keys]
      by_cases hk : key e.2 ∈ (accumBy key val rest).map (·.1)
      · rw [if_pos hk]
        exact hold
      · rw [if_neg hk, List.pairwise_append]
        refine ⟨hold, List.pairwise_singleton _ _, ?_⟩
        intro a ha b hb
        rw [List.mem_singleton] at hb
        subst hb
        have ha2 := (accumBy_mem key val rest a).mp ha
        have hklt : firstPosIdx key (rest ++ [e]) a < rest.length := by
          rw [firstPosIdx_append_of_found key rest [e] a ha2]
          exact firstPosIdx_lt_length key rest a ha2
        have hnew : ∀ x ∈ rest, ¬(0 < x.2.delta ∧ key x.2 = key e.2) := by
          intro x hx hcon
          exact hk ((accumBy_mem key val rest (key e.2)).mpr ⟨x, hx, hcon⟩)
        rw [firstPosIdx_append_new key rest e (key e.2) hnew ⟨hd, rfl⟩]
        exact hklt
    · rw [if_neg hd]
      exact hold

theorem posEntries_filter (key : DeltaRec → Option String)
    (ds : List (String × DeltaRec)) (a : Option String) :
    (posEntries ds).filter (fun e => decide (key e.2 = a)) =
      ds.filter (fun e => decide (0 < e.2.delta ∧ key e.2 = a)) := by
  unfold posEntries
  rw [List.filter_filter]
  apply List.filter_congr
  intro x hx
  rw [Bool.decide_and]
  exact Bool.and_comm _ _

theorem keySum_eq_posValSum (key : DeltaRec → Option String)
    (ds : List (String × DeltaRec)) (a : Option String) :
    keySum key ds a = posValSum key (fun r => r.delta) ds a := by
  unfold keySum posValSum
  rw [posEntries_filter]

theorem keyCount_eq_posValSum (key : DeltaRec → Option String)
    (ds : List (String × DeltaRec)) (a : Option String) :
    (keyCount key ds a : Int) = posValSum key (fun _ => 1) ds a := by
  unfold keyCount posValSum
  rw [posEntries_filter]
  generalize ds.filter (fun e => decide (0 < e.2.delta ∧ key e.2 = a)) = l
  induction l with
  | nil => rfl
  | cons x xs ih =>
    rw [List.map_cons, List.sum_cons, ← ih, List.length_cons]
    push_cast
    ring

/-- Stability of the embedded stable sorts: if the input list is pairwise
related by `R`, then in the sorted output any two elements tied under `le`
(related both ways) are still related by `R`, i.e. tied elements keep
their input order. -/
theorem mergeSort_tie_pairwise {α : Type} (le : α → α → Bool)
    (htrans : ∀ a b c, le a b → le b c → le a c)
    (htotal : ∀ a b, le a b || le b a)
    {l : List α} {R : α → α → Prop} (hR : l.Pairwise R) :
    (l.mergeSort le).Pairwise (fun a b => le a b = true → le b a = true → R a b) := by
  rw [← List.mergeSort_enum, List.pairwise_map]
  have hsorted : ((l.enum).mergeSort (List.enumLE le)).Pairwise
      (fun p q => List.enumLE le p q = true) :=
    List.sorted_mergeSort (List.enumLE_trans htrans) (List.enumLE_total htotal) _
  have hperm : List.Perm ((l.enum).mergeSort (List.enumLE le)) l.enum :=
    List.mergeSort_perm _ _
  have hnd : (((l.enum).mergeSort (List.enumLE le)).map (·.1)).Nodup := by
    have h1 : (l.enum.map (·.1)).Nodup := by
      have h2 := List.enum_map_fst l
      rw [show (fun p : Nat × α => p.1) = Prod.fst from rfl, h2]
      exact List.nodup_range _
    exact ((hperm.map (·.1)).nodup_iff).mpr h1
  have hne : ((l.enum).mergeSort (List.enumLE le)).Pairwise (fun p q => p.1 ≠ q.1) := by
    rw [List.Nodup, List.pairwise_map] at hnd
    exact hnd
  refine (hsorted.and hne).imp_of_mem ?_
  intro p q hp hq hpq hle1 hle2
  obtain ⟨hE, hne2⟩ := hpq
  have hidx : p.1 < q.1 := by
    unfold List.enumLE at hE
    rw [if_pos hle1, if_pos hle2] at hE
    have h3 : p.1 ≤ q.1 := of_decide_eq_true hE
    omega
  obtain ⟨i, x⟩ := p
  obtain ⟨j, y⟩ := q
  have hpmem := List.mem_enum (hperm.subset hp)
  have hqmem := List.mem_enum (hperm.subset hq)
  obtain ⟨hilt, hxe⟩ := hpmem
  obtain ⟨hjlt, hye⟩ := hqmem
  rw [show ((i, x) : Nat × α).2 = x from rfl, show ((j, y) : Nat × α).2 = y from rfl, hxe, hye]
  exact List.pairwise_iff_getElem.mp hR i j hilt hjlt hidx

/-! ### Unfolding equations for the Aggregator's fields -/

theorem aggregate_total (ds : List (String × DeltaRec)) :
    (aggregate_stats ds).total_play_deltas = (ds.map (·.2.delta)).sum := rfl

theorem aggregate_tracks (ds : List (String × DeltaRec)) :
    (aggregate_stats ds).tracks_with_plays_this_year
      = ds.countP (fun e => decide (0 < e.2.delta)) := rfl

theorem aggregate_avg (ds : List (String × DeltaRec)) :
    (aggregate_stats ds).average_plays_per_played_track =
      if ds.countP (fun e => decide (0 < e.2.delta)) = 0 then 0
      else (((ds.map (·.2.delta)).sum : Int) : ℚ)
            / ((ds.countP (fun e => decide (0 < e.2.delta)) : Nat) : ℚ) :=
  rfl

theorem aggregate_top100 (ds : List (String × DeltaRec)) :
    (aggregate_stats ds).top_100_songs = ((songEntries ds).mergeSort songGE).take 100 := rfl

theorem aggregate_top5 (ds : List (String × DeltaRec)) :
    (aggregate_stats ds).top_5_artists = (most_common (by_artist ds) 5).map
      (fun p => { artist := p.1, plays := p.2,
                  tracks := counterVal (artist_track_counts ds) p.1 : ArtistEntry }) := rfl

theorem aggregate_topalbum (ds : List (String × DeltaRec)) :
    (aggregate_stats ds).top_album =
      match (by_album ds).mergeSort cntGE with
      | [] => none
      | (a, p) :: _ =>
        some { album := a, plays := p, tracks := counterVal (album_track_counts ds) a } := rfl

/-! ### Comparator facts and misc lemmas -/

theorem songGE_trans (a b c : SongEntry) (h1 : songGE a b) (h2 : songGE b c) : songGE a c := by
  unfold songGE at h1 h2 ⊢
  have g1 : b.plays ≤ a.plays := of_decide_eq_true h1
  have g2 : c.plays ≤ b.plays := of_decide_eq_true h2
  exact decide_eq_true (le_trans g2 g1)

theorem songGE_total (a b : SongEntry) : songGE a b || songGE b a := by
  unfold songGE
  rcases le_total a.plays b.plays with h | h <;> simp [h]

theorem cntGE_trans (a b c : Option String × Int) (h1 : cntGE a b) (h2 : cntGE b c) :
    cntGE a c := by
  unfold cntGE at h1 h2 ⊢
  have g1 : b.2 ≤ a.2 := of_decide_eq_true h1
  have g2 : c.2 ≤ b.2 := of_decide_eq_true h2
  exact decide_eq_true (le_trans g2 g1)

theorem cntGE_total (a b : Option String × Int) : cntGE a b || cntGE b a := by
  unfold cntGE
  rcases le_total a.2 b.2 with h | h <;> simp [h]

theorem mergeSort_enum_fst_ne {α : Type} (le : α → α → Bool) (l : List α) :
    ((l.enum).mergeSort (List.enumLE le)).Pairwise (fun p q => p.1 ≠ q.1) := by
  have hperm : List.Perm ((l.enum).mergeSort (List.enumLE le)) l.enum :=
    List.mergeSort_perm _ _
  have h1 : (l.enum.map (·.1)).Nodup := by
    have h2 := List.enum_map_fst l
    rw [show (fun p : Nat × α => p.1) = Prod.fst from rfl, h2]
    exact List.nodup_range _
  have hnd := ((hperm.map (·.1)).nodup_iff).mpr h1
  rw [List.Nodup, List.pairwise_map] at hnd
  exact hnd

theorem accumBy_eq_nil (key : DeltaRec → Option String) (val : DeltaRec → Int)
    (ds : List (String × DeltaRec)) (h : ∀ e ∈ ds, ¬ 0 < e.2.delta) :
    accumBy key val ds = [] := by
  induction ds with
  | nil => rfl
  | cons e rest ih =>
    have h1 : accumBy key val (e :: rest) = accumBy key val rest := by
      unfold accumBy
      rw [List.foldl_cons, if_neg (h e (List.mem_cons_self e rest))]
    rw [h1]
    exact ih (fun x hx => h x (List.mem_cons_of_mem e hx))

theorem by_album_nil_iff (ds : List (String × DeltaRec)) :
    by_album ds = [] ↔ ∀ e ∈ ds, e.2.delta ≤ 0 := by
  constructor
  · intro h e he
    by_contra hle
    have hpos : 0 < e.2.delta := by omega
    have hmem := (accumBy_mem (fun r => r.album) (fun r => r.delta) ds e.2.album).mpr
      ⟨e, he, hpos, rfl⟩
    rw [show accumBy (fun r => r.album) (fun r => r.delta) ds = by_album ds from rfl, h] at hmem
    exact (List.not_mem_nil _) hmem
  · intro h
    exact accumBy_eq_nil _ _ _ (fun e he => by have := h e he; omega)

theorem countP_le_sum_delta (ds : List (String × DeltaRec))
    (h : ∀ e ∈ ds, 0 ≤ e.2.delta) :
    (ds.countP (fun e => decide (0 < e.2.delta)) : Int) ≤ (ds.map (·.2.delta)).sum := by
  induction ds with
  | nil => simp
  | cons e rest ih =>
    have he := h e (List.mem_cons_self e rest)
    have ih2 := ih (fun x hx => h x (List.mem_cons_of_mem e hx))
    rw [List.countP_cons, List.map_cons, List.sum_cons]
    by_cases hd : 0 < e.2.delta
    · rw [if_pos (decide_eq_true hd)]
      push_cast
      omega
    · rw [if_neg (by simpa using hd)]
      push_cast
      omega

/-- Claim C3: the average is 0 exactly when no entry has positive delta,
and otherwise equals total_play_deltas divided by the number of
positive-delta entries; the division is only ever taken with a non-zero
count.  The hypothesis that all deltas are non-negative is the Delta
Engine's invariant (its output is clamped at 0). -/
theorem average_no_div_by_zero (ds : List (String × DeltaRec))
    (h : ∀ e ∈ ds, 0 ≤ e.2.delta) :
    ((aggregate_stats ds).average_plays_per_played_track = 0 ↔ ∀ e ∈ ds, e.2.delta ≤ 0) ∧
    ((∃ e ∈ ds, 0 < e.2.delta) →
      (aggregate_stats ds).tracks_with_plays_this_year ≠ 0 ∧
      (aggregate_stats ds).average_plays_per_played_track
        = ((aggregate_stats ds).total_play_deltas : ℚ)
            / ((aggregate_stats ds).tracks_with_plays_this_year : ℚ)) := by
  rw [aggregate_avg, aggregate_total, aggregate_tracks]
  by_cases hz : ds.countP (fun e => decide (0 < e.2.delta)) = 0
  · rw [if_pos hz]
    constructor
    · constructor
      · intro _ e he
        have h2 := (List.countP_eq_zero.mp hz) e he
        simp at h2
        omega
      · intro _; rfl
    · rintro ⟨e, he, hpos2⟩
      have h2 := (List.countP_eq_zero.mp hz) e he
      simp at h2
      omega
  · have hne : ds.countP (fun e => decide (0 < e.2.delta)) ≠ 0 := hz
    have hpos : 0 < ds.countP (fun e => decide (0 < e.2.delta)) := Nat.pos_of_ne_zero hz
    rw [if_neg hne]
    have h1 : (ds.countP (fun e => decide (0 < e.2.delta)) : Int) ≤ (ds.map (·.2.delta)).sum :=
      countP_le_sum_delta ds h
    have h2 : (0 : Int) < (ds.map (·.2.delta)).sum := by
      have h3 : (0 : Int) < (ds.countP (fun e => decide (0 < e.2.delta)) : Int) := by
        exact_mod_cast hpos
      omega
    have h4 : (0 : ℚ) < (((ds.map (·.2.delta)).sum : Int) : ℚ) := by exact_mod_cast h2
    have h5 : (0 : ℚ) < ((ds.countP (fun e => decide (0 < e.2.delta)) : Nat) : ℚ) := by
      exact_mod_cast hpos
    have hdiv : 0 < (((ds.map (·.2.delta)).sum : Int) : ℚ)
        / ((ds.countP (fun e => decide (0 < e.2.delta)) : Nat) : ℚ) := div_pos h4 h5
    constructor
    · constructor
      · intro heq
        rw [heq] at hdiv
        exact absurd hdiv (lt_irrefl 0)
      · intro hall
        exfalso
        obtain ⟨e, he, hp⟩ := List.countP_pos_iff.mp hpos
        have hp2 : 0 < e.2.delta := of_decide_eq_true hp
        have := hall e he
        omega
    · intro _
      exact ⟨hne, rfl⟩

/-- Witness for C3 at a delta mapping with two positive entries and one
zero entry. -/
theorem average_no_div_by_zero_witness :
    (∀ e ∈ dsExample, 0 ≤ e.2.delta) ∧
    (((aggregate_stats dsExample).average_plays_per_played_track = 0
        ↔ ∀ e ∈ dsExample, e.2.delta ≤ 0) ∧
     ((∃ e ∈ dsExample, 0 < e.2.delta) →
        (aggregate_stats dsExample).tracks_with_plays_this_year ≠ 0 ∧
        (aggregate_stats dsExample).average_plays_per_played_track
          = ((aggregate_stats dsExample).total_play_deltas : ℚ)
              / ((aggregate_stats dsExample).tracks_with_plays_this_year : ℚ))) :=
  ⟨by decide, average_no_div_by_zero dsExample (by decide)⟩

/-- Claim C7: running the Delta Engine with identical snapshots yields
all-zero deltas, and aggregating that mapping yields zero totals, zero
played tracks, empty top-song and top-artist lists, and no top album. -/
theorem idempotent_run (S : Snapshot) :
    (∀ e ∈ compute_deltas S S, e.2.delta = 0) ∧
    (aggregate_stats (compute_deltas S S)).total_play_deltas = 0 ∧
    (aggregate_stats (compute_deltas S S)).tracks_with_plays_this_year = 0 ∧
    (aggregate_stats (compute_deltas S S)).top_100_songs = [] ∧
    (aggregate_stats (compute_deltas S S)).top_5_artists = [] ∧
    (aggregate_stats (compute_deltas S S)).top_album = none := by
  have hz : ∀ e ∈ compute_deltas S S, e.2.delta = 0 := by
    intro e he
    simp only [compute_deltas, List.mem_map] at he
    obtain ⟨k2, hk2, heq⟩ := he
    subst heq
    show (if getCount S k2 - getCount S k2 < 0 then 0 else getCount S k2 - getCount S k2) = 0
    split <;> omega
  refine ⟨hz, ?_, ?_, ?_, ?_, ?_⟩
  · rw [aggregate_total]
    apply List.sum_eq_zero
    intro x hx
    obtain ⟨e, he, rfl⟩ := List.mem_map.mp hx
    exact hz e he
  · rw [aggregate_tracks, List.countP_eq_zero]
    intro e he
    have := hz e he
    simp [this]
  · rw [aggregate_top100]
    have hse : songEntries (compute_deltas S S) = [] := by
      unfold songEntries
      rw [List.map_eq_nil_iff, List.filter_eq_nil_iff]
      intro e he
      have := hz e he
      simp [this]
    rw [hse, List.mergeSort_nil, List.take_nil]
  · rw [aggregate_top5]
    have hba : by_artist (compute_deltas S S) = [] :=
      accumBy_eq_nil _ _ _ (fun e he => by have := hz e he; omega)
    rw [show most_common (by_artist (compute_deltas S S)) 5
          = ((by_artist (compute_deltas S S)).mergeSort cntGE).take 5 from rfl, hba,
        List.mergeSort_nil, List.take_nil, List.map_nil]
  · rw [aggregate_topalbum]
    have hbb : by_album (compute_deltas S S) = [] :=
      accumBy_eq_nil _ _ _ (fun e he => by have := hz e he; omega)
    rw [hbb, List.mergeSort_nil]

/-- Witness for C7 at the worked-scenario current snapshot. -/
theorem idempotent_run_witness :
    (∀ e ∈ compute_deltas curExample curExample, e.2.delta = 0) ∧
    (aggregate_stats (compute_deltas curExample curExample)).total_play_deltas = 0 ∧
    (aggregate_stats (compute_deltas curExample curExample)).tracks_with_plays_this_year = 0 ∧
    (aggregate_stats (compute_deltas curExample curExample)).top_100_songs = [] ∧
    (aggregate_stats (compute_deltas curExample curExample)).top_5_artists = [] ∧
    (aggregate_stats (compute_deltas curExample curExample)).top_album = none :=
  idempotent_run curExample

/-- Claim C8: the Summary Builder's new/removed track lists are exactly
the delta-mapping identifiers with the stated playcount signs, the samples
are the first 10 of each in encountered order, and the reported counts are
the uncapped list lengths and snapshot sizes. -/
theorem summary_fields (cur prev : Snapshot) (ds : List (String × DeltaRec)) (stats : Stats) :
    (produce_summary cur prev ds stats).current_snapshot_tracks = cur.length ∧
    (produce_summary cur prev ds stats).previous_snapshot_tracks = prev.length ∧
    (produce_summary cur prev ds stats).new_tracks_count =
      ((ds.filter (fun e => decide (e.2.previous_playcount = 0 ∧ 0 < e.2.current_playcount))).map
        (·.1)).length ∧
    (produce_summary cur prev ds stats).removed_tracks_count =
      ((ds.filter (fun e => decide (0 < e.2.previous_playcount ∧ e.2.current_playcount = 0))).map
        (·.1)).length ∧
    (produce_summary cur prev ds stats).tracks_added_list_sample =
      ((ds.filter (fun e => decide (e.2.previous_playcount = 0 ∧ 0 < e.2.current_playcount))).map
        (·.1)).take 10 ∧
    (produce_summary cur prev ds stats).tracks_removed_list_sample =
      ((ds.filter (fun e => decide (0 < e.2.previous_playcount ∧ e.2.current_playcount = 0))).map
        (·.1)).take 10 ∧
    (∀ k, k ∈ (ds.filter
          (fun e => decide (e.2.previous_playcount = 0 ∧ 0 < e.2.current_playcount))).map (·.1)
        ↔ ∃ r, (k, r) ∈ ds ∧ r.previous_playcount = 0 ∧ 0 < r.current_playcount) ∧
    (∀ k, k ∈ (ds.filter
          (fun e => decide (0 < e.2.previous_playcount ∧ e.2.current_playcount = 0))).map (·.1)
        ↔ ∃ r, (k, r) ∈ ds ∧ 0 < r.previous_playcount ∧ r.current_playcount = 0) := by
  refine ⟨rfl, rfl, rfl, rfl, rfl, rfl, ?_, ?_⟩ <;>
  · intro k
    simp only [List.mem_map, List.mem_filter]
    constructor
    · rintro ⟨e, ⟨he, hcond⟩, rfl⟩
      exact ⟨e.2, he, (of_decide_eq_true hcond).1, (of_decide_eq_true hcond).2⟩
    · rintro ⟨r, hr, h1, h2⟩
      exact ⟨(k, r), ⟨hr, decide_eq_true ⟨h1, h2⟩⟩, rfl⟩

/-- Witness for C8 on a concrete summary run. -/
theorem summary_fields_witness :
    (produce_summary curExample prevExample dsExample
        (aggregate_stats dsExample)).new_tracks_count =
      ((dsExample.filter
          (fun e => decide (e.2.previous_playcount = 0 ∧ 0 < e.2.current_playcount))).map
        (·.1)).length ∧
    (produce_summary curExample prevExample dsExample
        (aggregate_stats dsExample)).tracks_added_list_sample =
      ((dsExample.filter
          (fun e => decide (e.2.previous_playcount = 0 ∧ 0 < e.2.current_playcount))).map
        (·.1)).take 10 :=
  ⟨(summary_fields curExample prevExample dsExample (aggregate_stats dsExample)).2.2.1,
   (summary_fields curExample prevExample dsExample (aggregate_stats dsExample)).2.2.2.2.1⟩

/-- Claim C10: the scalar aggregates (total deltas, positive-delta count,
average) are invariant under permutation of the delta mapping's entries. -/
theorem scalar_aggregates_perm_invariant (ds1 ds2 : List (String × DeltaRec))
    (h : List.Perm ds1 ds2) :
    (aggregate_stats ds1).total_play_deltas = (aggregate_stats ds2).total_play_deltas ∧
    (aggregate_stats ds1).tracks_with_plays_this_year
      = (aggregate_stats ds2).tracks_with_plays_this_year ∧
    (aggregate_stats ds1).average_plays_per_played_track
      = (aggregate_stats ds2).average_plays_per_played_track := by
  have hsum : (ds1.map (·.2.delta)).sum = (ds2.map (·.2.delta)).sum :=
    (h.map (·.2.delta)).sum_eq
  have hcnt : ds1.countP (fun e => decide (0 < e.2.delta))
      = ds2.countP (fun e => decide (0 < e.2.delta)) := h.countP_eq _
  refine ⟨?_, ?_, ?_⟩
  · rw [aggregate_total, aggregate_total, hsum]
  · rw [aggregate_tracks, aggregate_tracks, hcnt]
  · rw [aggregate_avg, aggregate_avg, hsum, hcnt]

/-- Witness for C10 on two orderings of the same three delta entries. -/
theorem scalar_aggregates_perm_invariant_witness :
    List.Perm dsExample dsExamplePerm ∧
    ((aggregate_stats dsExample).total_play_deltas
        = (aggregate_stats dsExamplePerm).total_play_deltas ∧
     (aggregate_stats dsExample).tracks_with_plays_this_year
        = (aggregate_stats dsExamplePerm).tracks_with_plays_this_year ∧
     (aggregate_stats dsExample).average_plays_per_played_track
        = (aggregate_stats dsExamplePerm).average_plays_per_played_track) :=
  ⟨by decide, scalar_aggregates_perm_invariant dsExample dsExamplePerm (by decide)⟩

theorem keySum_eq_zero (key : DeltaRec → Option String) (ds : List (String × DeltaRec))
    (a : Option String) (h : ¬ ∃ e ∈ ds, 0 < e.2.delta ∧ key e.2 = a) :
    keySum key ds a = 0 := by
  unfold keySum
  have hnil : (posEntries ds).filter (fun e => decide (key e.2 = a)) = [] := by
    rw [posEntries_filter, List.filter_eq_nil_iff]
    intro e he hcon
    exact h ⟨e, he, of_decide_eq_true hcon⟩
  rw [hnil]
  rfl

theorem keySum_pos (key : DeltaRec → Option String) (ds : List (String × DeltaRec))
    (a : Option String) (h : ∃ e ∈ ds, 0 < e.2.delta ∧ key e.2 = a) :
    0 < keySum key ds a := by
  unfold keySum
  apply List.sum_pos
  · intro x hx
    rw [List.mem_map] at hx
    obtain ⟨e, he, rfl⟩ := hx
    rw [posEntries_filter, List.mem_filter] at he
    exact (of_decide_eq_true he.2).1
  · obtain ⟨e, he, hd, hk⟩ := h
    have hmem : e ∈ (posEntries ds).filter (fun x => decide (key x.2 = a)) := by
      rw [posEntries_filter, List.mem_filter]
      exact ⟨he, decide_eq_true ⟨hd, hk⟩⟩
    intro hcon
    rw [List.map_eq_nil_iff] at hcon
    rw [hcon] at hmem
    exact (List.not_mem_nil e) hmem

/-- Claim C4: the top-song list is the positive-delta entries (zero-delta
entries excluded), stably sorted in non-increasing order of delta with
ties kept in the input iteration order, truncated to at most 100 entries.
The indexed list `L` is the sorted positive-delta entries tagged with
their input positions: sortedness with ties broken by ascending input
index is exactly stability. -/
theorem top_songs_ranked (ds : List (String × DeltaRec)) :
    (aggregate_stats ds).top_100_songs.length ≤ 100 ∧
    (aggregate_stats ds).top_100_songs.Pairwise (fun a b => b.plays ≤ a.plays) ∧
    ∃ L : List (Nat × SongEntry),
      List.Perm L ((songEntries ds).enum) ∧
      L.Pairwise (fun p q => q.2.plays ≤ p.2.plays ∧ (p.2.plays = q.2.plays → p.1 < q.1)) ∧
      (aggregate_stats ds).top_100_songs = (L.map (·.2)).take 100 := by
  rw [aggregate_top100]
  refine ⟨List.length_take_le _ _, ?_, ?_⟩
  · have hs := List.sorted_mergeSort songGE_trans songGE_total (songEntries ds)
    have ht := hs.sublist (List.take_sublist 100 _)
    exact ht.imp (fun hab => of_decide_eq_true hab)
  · refine ⟨((songEntries ds).enum).mergeSort (List.enumLE songGE),
      List.mergeSort_perm _ _, ?_, ?_⟩
    · have hsorted := List.sorted_mergeSort (List.enumLE_trans songGE_trans)
        (List.enumLE_total songGE_total) ((songEntries ds).enum)
      have hne := mergeSort_enum_fst_ne songGE (songEntries ds)
      refine (hsorted.and hne).imp ?_
      rintro p q ⟨hE, hne2⟩
      have hg1 : songGE p.2 q.2 = true := by
        by_contra hcon
        unfold List.enumLE at hE
        rw [if_neg hcon] at hE
        exact absurd hE (by simp)
      refine ⟨of_decide_eq_true hg1, fun heq => ?_⟩
      have hg2 : songGE q.2 p.2 = true := decide_eq_true (le_of_eq heq)
      unfold List.enumLE at hE
      rw [if_pos hg1, if_pos hg2] at hE
      exact lt_of_le_of_ne (of_decide_eq_true hE) hne2
    · rw [List.mergeSort_enum]

/-- Claim C5: the top-artist list has at most 5 entries, is sorted
non-increasingly by per-artist summed delta over positive-delta entries
with ties broken by first-encountered order, and each entry's `plays` is
that summed delta and its `tracks` the number of positive-delta entries by
that artist. -/
theorem top_artists_ranked (ds : List (String × DeltaRec)) :
    (aggregate_stats ds).top_5_artists.length ≤ 5 ∧
    (aggregate_stats ds).top_5_artists.Pairwise
      (fun x y => y.plays ≤ x.plays ∧
        (x.plays = y.plays →
          firstPosIdx (fun r => r.artist) ds x.artist
            < firstPosIdx (fun r => r.artist) ds y.artist)) ∧
    ∀ x ∈ (aggregate_stats ds).top_5_artists,
      x.plays = keySum (fun r => r.artist) ds x.artist ∧
      x.tracks = (keyCount (fun r => r.artist) ds x.artist : Int) := by
  rw [aggregate_top5]
  refine ⟨?_, ?_, ?_⟩
  · rw [List.length_map]
    exact List.length_take_le _ _
  · have hR : (by_artist ds).Pairwise (fun p q =>
        firstPosIdx (fun r => r.artist) ds p.1 < firstPosIdx (fun r => r.artist) ds q.1) := by
      have h := accumBy_keys_pairwise (fun r => r.artist) (fun r => r.delta) ds
      rw [List.pairwise_map] at h
      exact h
    have hsorted := List.sorted_mergeSort cntGE_trans cntGE_total (by_artist ds)
    have htie := mergeSort_tie_pairwise cntGE cntGE_trans cntGE_total hR
    have hcomb := (hsorted.and htie).sublist (List.take_sublist 5 _)
    rw [List.pairwise_map]
    refine hcomb.imp ?_
    rintro p q ⟨h1, h2⟩
    refine ⟨of_decide_eq_true h1, fun heq => ?_⟩
    exact h2 h1 (decide_eq_true (le_of_eq heq))
  · intro x hx
    rw [List.mem_map] at hx
    obtain ⟨p, hp, rfl⟩ := hx
    have hp2 : p ∈ (by_artist ds).mergeSort cntGE :=
      List.take_subset 5 ((by_artist ds).mergeSort cntGE) hp
    rw [List.mem_mergeSort] at hp2
    have hv : p.2 = counterVal (by_artist ds) p.1 :=
      counter_mem_val (by_artist ds) p.1 p.2 hp2 (accumBy_nodup _ _ ds)
    constructor
    · show p.2 = keySum (fun r => r.artist) ds p.1
      rw [hv, show by_artist ds = accumBy (fun r => r.artist) (fun r => r.delta) ds from rfl,
          accumBy_val, keySum_eq_posValSum]
    · show counterVal (artist_track_counts ds) p.1
        = (keyCount (fun r => r.artist) ds p.1 : Int)
      rw [show artist_track_counts ds = accumBy (fun r => r.artist) (fun _ => 1) ds from rfl,
          accumBy_val, keyCount_eq_posValSum]

/-- Claim C6: the top album is absent exactly when no entry has positive
delta; when present, its `plays` is its album's summed positive delta,
which is maximal among all albums of positive-delta entries, and its
`tracks` is the number of positive-delta entries with that album. -/
theorem top_album_ranked (ds : List (String × DeltaRec)) :
    ((aggregate_stats ds).top_album = none ↔ ∀ e ∈ ds, e.2.delta ≤ 0) ∧
    (∀ x, (aggregate_stats ds).top_album = some x →
      x.plays = keySum (fun r => r.album) ds x.album ∧
      x.tracks = (keyCount (fun r => r.album) ds x.album : Int) ∧
      ∀ a : Option String, keySum (fun r => r.album) ds a ≤ x.plays) := by
  rw [aggregate_topalbum]
  rcases hms : (by_album ds).mergeSort cntGE with _ | ⟨⟨a0, p0⟩, tl⟩
  · have hnil : by_album ds = [] := by
      have hlen := (List.mergeSort_perm (by_album ds) cntGE).length_eq
      rw [hms] at hlen
      exact List.length_eq_zero.mp hlen.symm
    constructor
    · constructor
      · intro _
        exact (by_album_nil_iff ds).mp hnil
      · intro _
        rfl
    · intro x hx
      exact absurd hx (Option.noConfusion)
  · have hmem0 : (a0, p0) ∈ (by_album ds).mergeSort cntGE := by
      rw [hms]
      exact List.mem_cons_self _ _
    rw [List.mem_mergeSort] at hmem0
    have hval : p0 = keySum (fun r => r.album) ds a0 := by
      have h1 := counter_mem_val (by_album ds) a0 p0 hmem0 (accumBy_nodup _ _ ds)
      rw [h1, show by_album ds = accumBy (fun r => r.album) (fun r => r.delta) ds from rfl,
          accumBy_val, keySum_eq_posValSum]
    constructor
    · constructor
      · intro hcon
        exact absurd hcon (Option.noConfusion)
      · intro hall
        exfalso
        have hnil := (by_album_nil_iff ds).mpr hall
        rw [hnil, List.mergeSort_nil] at hms
        exact List.noConfusion hms
    · intro x hx
      have hx2 : x =
          { album := a0, plays := p0, tracks := counterVal (album_track_counts ds) a0 } :=
        (Option.some.inj hx).symm
      subst hx2
      refine ⟨hval, ?_, ?_⟩
      · show counterVal (album_track_counts ds) a0
          = (keyCount (fun r => r.album) ds a0 : Int)
        rw [show album_track_counts ds = accumBy (fun r => r.album) (fun _ => 1) ds from rfl,
            accumBy_val, keyCount_eq_posValSum]
      · intro a
        show keySum (fun r => r.album) ds a ≤ p0
        by_cases hex : ∃ e ∈ ds, 0 < e.2.delta ∧ e.2.album = a
        · have hkey : a ∈ (by_album ds).map (·.1) :=
            (accumBy_mem (fun r => r.album) (fun r => r.delta) ds a).mpr hex
          rw [List.mem_map] at hkey
          obtain ⟨pr, hpr, hpr1⟩ := hkey
          have hprv : pr.2 = keySum (fun r => r.album) ds a := by
            have h1 := counter_mem_val (by_album ds) pr.1 pr.2 hpr (accumBy_nodup _ _ ds)
            rw [h1, hpr1, show by_album ds = accumBy (fun r => r.album) (fun r => r.delta) ds
                from rfl, accumBy_val, keySum_eq_posValSum]
          have hprs : pr ∈ (by_album ds).mergeSort cntGE := List.mem_mergeSort.mpr hpr
          rw [hms] at hprs
          have hsorted := List.sorted_mergeSort cntGE_trans cntGE_total (by_album ds)
          rw [hms] at hsorted
          rw [← hprv]
          rcases List.mem_cons.mp hprs with heq | htl
          · rw [heq]
          · have hrel := (List.pairwise_cons.mp hsorted).1 pr htl
            exact of_decide_eq_true hrel
        · rw [keySum_eq_zero (fun r => r.album) ds a hex]
          have hpos0 : ∃ e ∈ ds, 0 < e.2.delta ∧ e.2.album = a0 := by
            have h3 : a0 ∈ (by_album ds).map (·.1) :=
              List.mem_map.mpr ⟨(a0, p0), hmem0, rfl⟩
            exact (accumBy_mem (fun r => r.album) (fun r => r.delta) ds a0).mp h3
          have h4 := keySum_pos (fun r => r.album) ds a0 hpos0
          omega

/-- Witness for C5: the single top artist of the example delta mapping,
with its membership hypothesis discharged concretely. -/
theorem top_artists_ranked_witness :
    ({ artist := some "ar", plays := 5, tracks := 2 } : ArtistEntry)
      ∈ (aggregate_stats dsExample).top_5_artists ∧
    (({ artist := some "ar", plays := 5, tracks := 2 } : ArtistEntry).plays
        = keySum (fun r => r.artist) dsExample (some "ar") ∧
     ({ artist := some "ar", plays := 5, tracks := 2 } : ArtistEntry).tracks
        = (keyCount (fun r => r.artist) dsExample (some "ar") : Int)) := by
  have hmem : ({ artist := some "ar", plays := 5, tracks := 2 } : ArtistEntry)
      ∈ (aggregate_stats dsExample).top_5_artists := by
    simp [aggregate_stats, most_common, by_artist, artist_track_counts, accumBy,
      counterAdd, counterVal, dsExample, List.mergeSort]
  exact ⟨hmem, (top_artists_ranked dsExample).2.2 _ hmem⟩

/-- Witness for C6: the top album of the example delta mapping, with the
`some`-hypothesis discharged concretely. -/
theorem top_album_ranked_witness :
    (aggregate_stats dsExample).top_album =
      some { album := some "al", plays := 3, tracks := 1 } ∧
    (({ album := some "al", plays := 3, tracks := 1 } : AlbumEntry).plays
        = keySum (fun r => r.album) dsExample (some "al") ∧
     ({ album := some "al", plays := 3, tracks := 1 } : AlbumEntry).tracks
        = (keyCount (fun r => r.album) dsExample (some "al") : Int)) := by
  have heq : (aggregate_stats dsExample).top_album =
      some { album := some "al", plays := 3, tracks := 1 } := by
    simp [aggregate_stats, by_album, album_track_counts, accumBy,
      counterAdd, counterVal, dsExample, List.mergeSort, cntGE]
  have h2 := (top_album_ranked dsExample).2 _ heq
  exact ⟨heq, h2.1, h2.2.1⟩

end QLWrapped
